import Mathlib

/-!
Verification development for the test-generation pipeline in
`.github/scripts/copilot_test_gen.py`.

Shallow embedding conventions:
* Python strings are modelled as `List Char` (`Str`); `str` injects Lean
  string literals.
* Filesystem paths handled by `pathlib` are modelled as lists of path
  components (`PathC`); the contents of the `tests/` directory are modelled
  as the list of file names present in it.
* Shell invocations (`sh`) are modelled by their observable outcome: the
  child's exit code and captured stdout.  `sh` with `check=True` and a
  non-zero code calls `sys.exit`, modelled with `Except Nat`, the error
  carrying the process exit code.
-/

/-- Python `str` values, modelled as their character lists. -/
abbrev Str := List Char

/-- Inject a Lean string literal into the model. -/
def str (s : String) : Str := s.data

/-- Characters stripped by Python `str.strip()` (ASCII whitespace). -/
def isSpaceB (c : Char) : Bool :=
  c == ' ' || c == '\t' || c == '\n' || c == '\r' || c == Char.ofNat 11 || c == Char.ofNat 12

/-- Leading-whitespace removal, the left half of Python `str.strip()`. -/
def trimLeft (s : Str) : Str := s.dropWhile isSpaceB

/-- Trailing-whitespace removal, the right half of Python `str.strip()`. -/
def trimRight (s : Str) : Str := (s.reverse.dropWhile isSpaceB).reverse

/-- Python `str.strip()`. -/
def stripStr (s : Str) : Str := trimRight (trimLeft s)

/-- Split a string at a separator character; models `str.split(sep)` and,
for `sep = newline`, the line decomposition used by `splitlines` (the
filter applied afterwards drops the blank-line differences between the
two). -/
def splitSep (sep : Char) : Str → List Str
  | [] => [[]]
  | c :: cs =>
    let r := splitSep sep cs
    if c == sep then [] :: r
    else
      match r with
      | [] => [[c]]
      | h :: t => (c :: h) :: t

/-- Join lines with newlines; models `"\n".join(lines)`. -/
def joinLines (lines : List Str) : Str := List.intercalate (str "\n") lines

/-- Does `pat` occur as a contiguous substring of `s`?  Models `re.search`
on a literal pattern and Python's `in` on strings. -/
def hasSubstr (pat : Str) : Str → Bool
  | [] => pat.isEmpty
  | c :: cs => pat.isPrefixOf (c :: cs) || hasSubstr pat cs

/-- Fuel-driven worker for `removeAll`; fuel `s.length` always suffices
because every step consumes at least one character of `s`. -/
def removeAllAux (pat : Str) : Nat → Str → Str
  | 0, _ => []
  | _ + 1, [] => []
  | fuel + 1, c :: cs =>
    if pat.isPrefixOf (c :: cs) && !pat.isEmpty then
      removeAllAux pat fuel (cs.drop (pat.length - 1))
    else
      c :: removeAllAux pat fuel cs

/-- Python `s.replace(pat, "")`: delete every (leftmost, non-overlapping)
occurrence of `pat`. -/
def removeAll (pat : Str) (s : Str) : Str := removeAllAux pat s.length s

/-- Decimal digits of `n`, fuel-driven so that the kernel can evaluate it;
fuel `n + 1` always suffices since the recursion divides by 10. -/
def natStrAux : Nat → Nat → Str
  | 0, _ => []
  | fuel + 1, n =>
    if n < 10 then [Nat.digitChar n]
    else natStrAux fuel (n / 10) ++ [Nat.digitChar (n % 10)]

/-- Python `str(n)` for a natural number: its decimal representation. -/
def natStr (n : Nat) : Str := natStrAux (n + 1) n

/-- Read a digit string back as a number; inverse used to prove `natStr`
injective. -/
def strVal (s : Str) : Nat := s.foldl (fun a c => a * 10 + (c.toNat - 48)) 0

/-!
Output Sanitizer (`generate_tests_with_copilot`, lines 129-146).
-/

/-- Literal alternatives of the noise regex on line 134, lowercased; the
regex is applied with `re.IGNORECASE`. -/
def bannedSubs : List Str :=
  [str "deprecation", str "announcement", str "copilot", str "visit",
   str "information", str "http", str "github.com"]

/-- Case-insensitive test for the noise regex of line 134. -/
def bannedHit (s : Str) : Bool :=
  bannedSubs.any (fun p => hasSubstr p (s.map Char.toLower))

/-- Literal alternatives of the keep regex on line 138 (`re.match`, so each
is tested as a prefix of the stripped line). -/
def kwPrefixes : List Str :=
  [str "import ", str "from ", str "def ", str "class ", str "@",
   str "assert", str "if ", str "for ", str "while ", str "try",
   str "except", str "with ", str "return", str "#"]

/-- Does the stripped line start with one of the keep keywords? -/
def keywordHit (s : Str) : Bool := kwPrefixes.any (fun p => p.isPrefixOf s)

/-- Three single-quote characters; built from character codes so the model
matches the `'''` literal of the source. -/
def tripleSingle : Str := List.replicate 3 (Char.ofNat 39)

/-- The `startswith(("    ", '\"\"\"', "'''"))` test of line 141.  Note the
source applies it to `line_stripped`, so the four-space alternative can
never fire; it is kept to mirror the code. -/
def triplePrefixHit (s : Str) : Bool :=
  (str "    ").isPrefixOf s || (str "\"\"\"").isPrefixOf s || tripleSingle.isPrefixOf s

/-- One iteration of the sanitizer loop (lines 132-143): returns the line
kept in `cleaned_lines` (stripped or original), or `none` if dropped. -/
def processLine (line : Str) : Option Str :=
  let ls := stripStr line
  if bannedHit ls then none
  else if ls.isEmpty then none
  else if keywordHit ls then some ls
  else if triplePrefixHit ls then some line
  else none

/-- The whole line-filtering pass of the sanitizer (lines 130-143). -/
def filterLines (lines : List Str) : List Str := lines.filterMap processLine

/-- Lines 128-146: strip the raw provider text, filter its lines, re-join,
delete fenced-block markers, and strip the result. -/
def cleanText (raw : Str) : Str :=
  stripStr (removeAll (str "```")
    (removeAll (str "```python")
      (joinLines (filterLines (splitSep '\n' (stripStr raw))))))

/-!
Test-filename chooser (`get_next_test_filename`, lines 54-61).
-/

/-- The canonical test file name `test_<stem>.py`. -/
def baseName (stem : Str) : Str := str "test_" ++ stem ++ str ".py"

/-- The sibling name `test_<stem>_<k>.py`. -/
def numbered (stem : Str) (k : Nat) : Str :=
  str "test_" ++ stem ++ str "_" ++ natStr k ++ str ".py"

/-- The `while file_path.exists()` loop of lines 57-60, fuel-driven; fuel
`fs.length + 1` suffices because the candidate names are pairwise distinct
while `fs` is finite (proved below). -/
def nextLoop (fs : List Str) (stem : Str) : Nat → Nat → Str
  | counter, 0 => numbered stem counter
  | counter, fuel + 1 =>
    if numbered stem counter ∈ fs then nextLoop fs stem (counter + 1) fuel
    else numbered stem counter

/-- Lines 54-61: first free name among `test_<stem>.py`,
`test_<stem>_1.py`, `test_<stem>_2.py`, ...  `fs` is the list of file
names currently present in `tests/`. -/
def get_next_test_filename (fs : List Str) (stem : Str) : Str :=
  if baseName stem ∈ fs then nextLoop fs stem 1 (fs.length + 1)
  else baseName stem

/-!
Path Resolver (`module_import_path`, lines 22-31) on component lists.
-/

/-- Path components. -/
abbrev Comp := List Char

/-- A filesystem path as its list of components. -/
abbrev PathC := List Comp

/-- The `Path.name` of a path: its last component. -/
def lastComp (p : PathC) : Comp := p.getLastD []

/-- Python `PurePath` suffix removal (`with_suffix('')` on the name): drop
from the last dot provided that dot is neither the first character nor the
last (the `0 < i < len(name) - 1` condition of `PurePath.suffix`). -/
def stripLastSuffix (name : Comp) : Comp :=
  match name.reverse.findIdx? (fun c => c == '.') with
  | none => name
  | some j =>
    if 1 ≤ j ∧ j + 1 < name.length then (name.reverse.drop (j + 1)).reverse
    else name

/-- Lines 24-27: `abs_fp.relative_to(BASE)`, falling back to
`Path(abs_fp.name)` when the `ValueError` is caught. -/
def relTo (base fp : PathC) : PathC :=
  if base.isPrefixOf fp then fp.drop base.length else [lastComp fp]

/-- `rel_to_base.with_suffix('')`: strip the suffix of the last component. -/
def withSuffixEmpty : PathC → PathC
  | [] => []
  | p => p.dropLast ++ [stripLastSuffix (lastComp p)]

/-- `as_posix().replace('/', '.')`: join with slashes, then turn every
slash into a dot. -/
def dotify (p : PathC) : Str :=
  (List.intercalate (str "/") p).map (fun c => if c == '/' then '.' else c)

/-- Lines 29-30: prepend `src.` unless already present. -/
def srcPrefixed (m : Str) : Str :=
  if (str "src.").isPrefixOf m then m else str "src." ++ m

/-- Lines 22-31: dotted module identifier of a file path. -/
def module_import_path (base fp : PathC) : Str :=
  srcPrefixed (dotify (withSuffixEmpty (relTo base fp)))

/-- `Path.stem`: name of the file without its final suffix. -/
def pathStem (fp : PathC) : Str := stripLastSuffix (lastComp fp)

/-!
Shell Adapter (`sh`, lines 12-19).
-/

/-- Observable outcome of one child process: exit code and captured
stdout. -/
structure ProcResult where
  code : Nat
  out : Str

/-- Lines 12-19: run a command.  With `check` and a non-zero exit code the
script calls `sys.exit(returncode)`, modelled as `Except.error`; otherwise
the captured stdout (or the empty string) is returned. -/
def sh (check capture : Bool) (r : ProcResult) : Except Nat Str :=
  if check && !(r.code == 0) then Except.error r.code
  else Except.ok (if capture then r.out else [])

/-!
Suggestion acquisition and materialization
(`generate_tests_with_copilot`, lines 95-165).
-/

/-- The placeholder module written on lines 153-161 when the sanitized
output is unusable. -/
def placeholder (modPath : Str) : Str :=
  str "\nimport pytest\nfrom " ++ modPath ++
  str " import *\n\ndef test_placeholder():\n    # Placeholder test because Copilot output was empty.\n    # Ensures pipeline continuity; replace with real tests later.\n    assert True\n"

/-- Result of one materialization: file name written, content written, and
the `tests/` directory contents afterwards. -/
structure GenResult where
  written : Str
  content : Str
  fsAfter : List Str
deriving DecidableEq

/-- Lines 95-165 after the prompt/CLI-flag selection (which only shapes the
command string): invoke the provider through `sh` (`check=True`!), sanitize
the output, choose the next free test filename, substitute the placeholder
when no test function is present, and write the file.  `prov` is the
provider invocation's outcome, `fp` the source file. -/
def generate_tests_with_copilot (base : PathC) (fs : List Str) (prov : ProcResult) (fp : PathC) :
    Except Nat GenResult :=
  match sh true true prov with
  | Except.error c => Except.error c
  | Except.ok raw =>
    let cleaned := cleanText raw
    let test_file := get_next_test_filename fs (pathStem fp)
    let body :=
      if cleaned.isEmpty || !(hasSubstr (str "def test_") cleaned) then
        placeholder (module_import_path base fp)
      else cleaned
    Except.ok ⟨test_file, stripStr body ++ str "\n", fs ++ [test_file]⟩

/-!
Coverage Analyzer (`find_uncovered_functions`, lines 64-92).
-/

/-- One function object reachable from the imported module
(`inspect.getmembers(module, inspect.isfunction)`): its name, the file
`inspect.getsourcefile` resolves it to, and its first source line (present
in the inspect data but never consulted by the analyzer). -/
structure FnInfo where
  name : Str
  file : Str
  firstLine : Nat
deriving DecidableEq

/-- Loaded coverage data: the measured files and, per file, the missing
line numbers reported by `cov.analysis`. -/
structure CovData where
  measured : List Str
  missingOf : Str → List Nat

/-- Lines 64-92: `none` inputs model the `except` branches (unloadable
coverage data, unimportable module), both of which return `[]`.  Otherwise
a function is reported iff its source file is measured and that file has a
non-empty missing-lines list. -/
def find_uncovered_functions (cov : Option CovData) (fns : Option (List FnInfo)) : List Str :=
  match cov with
  | none => []
  | some cd =>
    match fns with
    | none => []
    | some l =>
      (l.filter (fun f => cd.measured.contains f.file && !(cd.missingOf f.file).isEmpty)).map
        (fun f => f.name)

/-!
Change Detector filter (`get_changed_files`, line 49).
-/

/-- A candidate file as the filter sees it: its absolute path string and
the results of the `exists()` and `is_file()` probes. -/
structure FileInfo where
  path : Str
  present : Bool
  isRegular : Bool
deriving DecidableEq

/-- Line 49: `f.exists() and "tests" not in str(f) and f.resolve().is_file()
and str(f).startswith(str(SRC))`. -/
def changed_filter (srcRoot : Str) (cands : List FileInfo) : List FileInfo :=
  cands.filter (fun f =>
    f.present && !(hasSubstr (str "tests") f.path) && f.isRegular &&
      srcRoot.isPrefixOf f.path)

/-- Spec-side keep predicate, following the specification's five conditions
word for word (exists, regular file, rooted under the source root, does not
traverse the tests root, ends in the source extension); stated on path
components so that "rooted under" and "traverse" mean path containment, for
comparison with `changed_filter`. -/
def specKeep (srcRoot : Str) (f : FileInfo) : Prop :=
  f.present = true ∧ f.isRegular = true ∧
  ((splitSep '/' srcRoot).isPrefixOf (splitSep '/' f.path) = true ∧
    (splitSep '/' srcRoot).length < (splitSep '/' f.path).length) ∧
  str "tests" ∉ splitSep '/' f.path ∧
  (str ".py").isSuffixOf f.path = true

/-!
Commit phase (`git_commit_and_push`, lines 182-189).
-/

/-- Exit codes of the version-control steps: the two `git config` calls,
`git add` per file, `git commit`, `git push`. -/
structure Vcs where
  cfgName : Nat
  cfgEmail : Nat
  addOf : Str → Nat
  commit : Nat
  push : Nat

/-- Lines 185-186: `sh(f"git add {f}")` for each file, with the default
`check=True`. -/
def stageAll (v : Vcs) : List Str → Except Nat Unit
  | [] => Except.ok ()
  | f :: rest =>
    match sh true false ⟨v.addOf f, []⟩ with
    | Except.error c => Except.error c
    | Except.ok _ => stageAll v rest

/-- Lines 182-189: both `git config` calls and every `git add` go through
`sh` with the default `check=True`; only `git commit` and `git push` pass
`check=False`. -/
def git_commit_and_push (v : Vcs) (files : List Str) : Except Nat Unit :=
  match sh true false ⟨v.cfgName, []⟩ with
  | Except.error c => Except.error c
  | Except.ok _ =>
    match sh true false ⟨v.cfgEmail, []⟩ with
    | Except.error c => Except.error c
    | Except.ok _ =>
      match stageAll v files with
      | Except.error c => Except.error c
      | Except.ok _ =>
        match sh false false ⟨v.commit, []⟩, sh false false ⟨v.push, []⟩ with
        | _, _ => Except.ok ()

/-!
Driver (`__main__`, lines 200-230).
-/

/-- Accumulated outcome of a generation loop: materializations performed,
`tests/` contents afterwards, the `sys.exit` code if the loop aborted, and
the number of provider invocations actually made. -/
structure PhOut where
  gens : List GenResult
  fsOut : List Str
  err : Option Nat
  calls : Nat

/-- Lines 211-213 (phase A): one whole-module generation per changed file;
`provOf i` is the outcome of the `i`-th provider invocation of the run. -/
def phaseA (base : PathC) (provOf : Nat → ProcResult) : Nat → List PathC → List Str → PhOut
  | _, [], fs => ⟨[], fs, none, 0⟩
  | i, f :: rest, fs =>
    match generate_tests_with_copilot base fs (provOf i) f with
    | Except.error c => ⟨[], fs, some c, 1⟩
    | Except.ok g =>
      let o := phaseA base provOf (i + 1) rest g.fsAfter
      ⟨g :: o.gens, o.fsOut, o.err, o.calls + 1⟩

/-- Lines 222-224: one targeted generation per uncovered function of one
file (the function name only changes the prompt, not the materialization). -/
def phaseBFuncs (base : PathC) (provOf : Nat → ProcResult) (fp : PathC) :
    Nat → List Str → List Str → PhOut
  | _, [], fs => ⟨[], fs, none, 0⟩
  | i, _ :: rest, fs =>
    match generate_tests_with_copilot base fs (provOf i) fp with
    | Except.error c => ⟨[], fs, some c, 1⟩
    | Except.ok g =>
      let o := phaseBFuncs base provOf fp (i + 1) rest g.fsAfter
      ⟨g :: o.gens, o.fsOut, o.err, o.calls + 1⟩

/-- Lines 217-224 (phase B): per changed file, compute the uncovered
functions of its module and re-ask per function.  `importOf` models
`importlib.import_module` (`none` = import failure). -/
def phaseB (base : PathC) (provOf : Nat → ProcResult) (cov : Option CovData)
    (importOf : Str → Option (List FnInfo)) : Nat → List PathC → List Str → PhOut
  | _, [], fs => ⟨[], fs, none, 0⟩
  | i, f :: rest, fs =>
    let unc := find_uncovered_functions cov (importOf (module_import_path base f))
    let o1 := phaseBFuncs base provOf f i unc fs
    match o1.err with
    | some c => ⟨o1.gens, o1.fsOut, some c, o1.calls⟩
    | none =>
      let o2 := phaseB base provOf cov importOf (i + o1.calls) rest o1.fsOut
      ⟨o1.gens ++ o2.gens, o2.fsOut, o2.err, o1.calls + o2.calls⟩

/-- Observable outcome of one driver run. -/
structure DriverResult where
  exitCode : Nat
  provCalls : Nat
  writes : List GenResult
  pytestRan : Bool
deriving DecidableEq

/-- Lines 200-230: the two-phase driver.  `changed` is the Change
Detector's result, `scan` the `SRC.rglob` fallback, `pytestOk` the
Validator verdict, `v` the version-control step outcomes, `fs0` the
initial `tests/` contents. -/
def main_model (base : PathC) (changed scan : List PathC) (provOf : Nat → ProcResult)
    (pytestOk : Bool) (cov : Option CovData) (importOf : Str → Option (List FnInfo))
    (v : Vcs) (fs0 : List Str) : DriverResult :=
  let changed2 := if changed.isEmpty then scan else changed
  if changed2.isEmpty then ⟨0, 0, [], false⟩
  else
    let a := phaseA base provOf 0 changed2 fs0
    match a.err with
    | some c => ⟨c, a.calls, a.gens, false⟩
    | none =>
      if pytestOk then
        let b := phaseB base provOf cov importOf a.calls changed2 a.fsOut
        match b.err with
        | some c => ⟨c, a.calls + b.calls, a.gens ++ b.gens, true⟩
        | none =>
          match git_commit_and_push v ((a.gens ++ b.gens).map (fun g => g.written)) with
          | Except.error c => ⟨c, a.calls + b.calls, a.gens ++ b.gens, true⟩
          | Except.ok _ => ⟨0, a.calls + b.calls, a.gens ++ b.gens, true⟩
      else ⟨1, a.calls, a.gens, true⟩

/-!
Helper lemmas.
-/

theorem dropWhile_head_false {α : Type} {p : α → Bool} :
    ∀ {l : List α} {x : α} {xs : List α}, l.dropWhile p = x :: xs → p x = false := by
  intro l
  induction l with
  | nil => intro x xs h; simp [List.dropWhile] at h
  | cons a t ih =>
    intro x xs h
    rw [List.dropWhile_cons] at h
    by_cases hp : p a = true
    · rw [if_pos hp] at h; exact ih h
    · rw [if_neg hp] at h
      injection h with h1 _
      subst h1
      simpa using hp

theorem dropWhile_cons_self {α : Type} {p : α → Bool} {x : α} {xs : List α} (h : p x = false) :
    (x :: xs).dropWhile p = x :: xs := by
  rw [List.dropWhile_cons, if_neg (by simp [h])]

theorem dropWhile_idem {α : Type} (p : α → Bool) (l : List α) :
    (l.dropWhile p).dropWhile p = l.dropWhile p := by
  cases h : l.dropWhile p with
  | nil => simp
  | cons x xs => exact dropWhile_cons_self (dropWhile_head_false h)

theorem stripStr_idem (s : Str) : stripStr (stripStr s) = stripStr s := by
  have hstep1 : trimLeft (stripStr s) = stripStr s := by
    cases hB : stripStr s with
    | nil => simp [trimLeft]
    | cons y ys =>
      apply dropWhile_cons_self
      obtain ⟨t, ht⟩ := List.dropWhile_suffix (l := (trimLeft s).reverse) isSpaceB
      have hA : trimLeft s = stripStr s ++ t.reverse := by
        have h2 := congrArg List.reverse ht
        rw [List.reverse_append, List.reverse_reverse] at h2
        exact h2.symm
      rw [hB] at hA
      exact dropWhile_head_false (l := s) (by simpa [List.cons_append] using hA)
  have hstep2 : trimRight (stripStr s) = stripStr s := by
    show ((stripStr s).reverse.dropWhile isSpaceB).reverse = stripStr s
    have : (stripStr s).reverse = (trimLeft s).reverse.dropWhile isSpaceB := by
      show (trimRight (trimLeft s)).reverse = _
      unfold trimRight
      rw [List.reverse_reverse]
    rw [this, dropWhile_idem, ← this, List.reverse_reverse]
  show trimRight (trimLeft (stripStr s)) = stripStr s
  rw [hstep1, hstep2]

theorem processLine_fix {l m : Str} (h : processLine l = some m) : processLine m = some m := by
  unfold processLine at h
  by_cases hb : bannedHit (stripStr l) = true
  · simp [hb] at h
  · by_cases he : (stripStr l).isEmpty = true
    · simp [hb, he] at h
    · by_cases hk : keywordHit (stripStr l) = true
      · rw [if_neg (by simp [hb]), if_neg (by simp [he]), if_pos hk] at h
        injection h with h1
        subst h1
        unfold processLine
        rw [stripStr_idem]
        rw [if_neg (by simp [hb]), if_neg (by simp [he]), if_pos hk]
      · by_cases ht : triplePrefixHit (stripStr l) = true
        · rw [if_neg (by simp [hb]), if_neg (by simp [he]), if_neg (by simp [hk]),
            if_pos ht] at h
          injection h with h1
          subst h1
          unfold processLine
          rw [if_neg (by simp [hb]), if_neg (by simp [he]), if_neg (by simp [hk]), if_pos ht]
        · simp [hb, he, hk, ht] at h

theorem natStrAux_fuel (n : Nat) : ∀ f1 f2, n < f1 → n < f2 → natStrAux f1 n = natStrAux f2 n := by
  induction n using Nat.strong_induction_on with
  | _ n ih =>
    intro f1 f2 h1 h2
    cases f1 with
    | zero => omega
    | succ f1 =>
      cases f2 with
      | zero => omega
      | succ f2 =>
        simp only [natStrAux]
        by_cases hn : n < 10
        · rw [if_pos hn, if_pos hn]
        · rw [if_neg hn, if_neg hn]
          have hdiv : n / 10 < n := Nat.div_lt_self (by omega) (by omega)
          rw [ih (n / 10) hdiv f1 f2 (by omega) (by omega)]

theorem strVal_digit : ∀ m, m < 10 → strVal [Nat.digitChar m] = m := by decide

theorem digitChar_val : ∀ m, m < 10 → (Nat.digitChar m).toNat - 48 = m := by decide

theorem strVal_natStr (n : Nat) : strVal (natStr n) = n := by
  induction n using Nat.strong_induction_on with
  | _ n ih =>
    unfold natStr
    simp only [natStrAux]
    by_cases hn : n < 10
    · rw [if_pos hn]
      exact strVal_digit n hn
    · rw [if_neg hn]
      have hdiv : n / 10 < n := Nat.div_lt_self (by omega) (by omega)
      rw [natStrAux_fuel (n / 10) n (n / 10 + 1) hdiv (Nat.lt_succ_self _)]
      have hns : natStrAux (n / 10 + 1) (n / 10) = natStr (n / 10) := rfl
      rw [hns]
      show List.foldl (fun a c => a * 10 + (c.toNat - 48)) 0 (natStr (n / 10) ++ [Nat.digitChar (n % 10)]) = n
      rw [List.foldl_append]
      have hv : List.foldl (fun a c => a * 10 + (c.toNat - 48)) 0 (natStr (n / 10)) = n / 10 :=
        ih (n / 10) hdiv
      rw [hv]
      simp only [List.foldl]
      have hd := digitChar_val (n % 10) (Nat.mod_lt _ (by omega))
      omega

theorem natStr_injective : Function.Injective natStr := by
  intro a b h
  have ha := strVal_natStr a
  have hb := strVal_natStr b
  rw [h] at ha
  omega

theorem natStr_ne_nil (n : Nat) : natStr n ≠ [] := by
  unfold natStr
  simp only [natStrAux]
  by_cases hn : n < 10
  · simp [hn]
  · simp [hn]

theorem numbered_injective (stem : Str) : Function.Injective (numbered stem) := by
  intro a b h
  unfold numbered at h
  have h1 := List.append_cancel_right h
  exact natStr_injective (List.append_cancel_left h1)

theorem numbered_ne_base (stem : Str) (k : Nat) : numbered stem k ≠ baseName stem := by
  intro h
  have hlen := congrArg List.length h
  simp only [numbered, baseName, List.length_append] at hlen
  have hp : 0 < (natStr k).length := List.length_pos.mpr (natStr_ne_nil k)
  omega

theorem exists_fresh_numbered (fs : List Str) (stem : Str) (c : Nat) :
    ∃ j, c ≤ j ∧ j < c + (fs.length + 1) ∧ numbered stem j ∉ fs := by
  by_contra hcon
  push_neg at hcon
  have hsub : (List.range' c (fs.length + 1)).map (numbered stem) ⊆ fs := by
    intro x hx
    simp only [List.mem_map, List.mem_range'] at hx
    obtain ⟨j, ⟨i, hi, hj⟩, rfl⟩ := hx
    exact hcon j (by omega) (by omega)
  have hnd : ((List.range' c (fs.length + 1)).map (numbered stem)).Nodup :=
    (List.nodup_range' _ _).map (numbered_injective stem)
  have hle := (hnd.subperm hsub).length_le
  simp only [List.length_map, List.length_range'] at hle
  omega

theorem nextLoop_spec (fs : List Str) (stem : Str) :
    ∀ fuel counter, (∃ j, counter ≤ j ∧ j < counter + fuel ∧ numbered stem j ∉ fs) →
    ∃ k, counter ≤ k ∧ nextLoop fs stem counter fuel = numbered stem k ∧
      numbered stem k ∉ fs ∧ ∀ j, counter ≤ j → j < k → numbered stem j ∈ fs := by
  intro fuel
  induction fuel with
  | zero =>
    intro counter h
    obtain ⟨j, h1, h2, _⟩ := h
    omega
  | succ fuel ih =>
    intro counter hex
    simp only [nextLoop]
    by_cases hc : numbered stem counter ∈ fs
    · rw [if_pos hc]
      obtain ⟨j, h1, h2, h3⟩ := hex
      have hj : counter + 1 ≤ j := by
        rcases Nat.eq_or_lt_of_le h1 with heq | h
        · exact absurd (heq ▸ hc) h3
        · omega
      obtain ⟨k, hk1, hk2, hk3, hk4⟩ := ih (counter + 1) ⟨j, hj, by omega, h3⟩
      refine ⟨k, by omega, hk2, hk3, ?_⟩
      intro j2 hj2 hj2k
      rcases Nat.eq_or_lt_of_le hj2 with heq | h
      · exact heq ▸ hc
      · exact hk4 j2 (by omega) hj2k
    · rw [if_neg hc]
      exact ⟨counter, Nat.le_refl _, rfl, hc, by omega⟩

theorem getNext_spec (fs : List Str) (stem : Str) :
    get_next_test_filename fs stem ∉ fs ∧
    (baseName stem ∉ fs → get_next_test_filename fs stem = baseName stem) ∧
    (baseName stem ∈ fs → ∃ k, 1 ≤ k ∧ get_next_test_filename fs stem = numbered stem k ∧
      ∀ j, 1 ≤ j → j < k → numbered stem j ∈ fs) := by
  unfold get_next_test_filename
  by_cases hb : baseName stem ∈ fs
  · rw [if_pos hb]
    obtain ⟨k, hk1, hk2, hk3, hk4⟩ :=
      nextLoop_spec fs stem (fs.length + 1) 1 (exists_fresh_numbered fs stem 1)
    exact ⟨hk2 ▸ hk3, fun h => absurd hb h, fun _ => ⟨k, hk1, hk2, hk4⟩⟩
  · rw [if_neg hb]
    exact ⟨hb, fun _ => rfl, fun h => absurd h hb⟩

theorem stageAll_ok (v : Vcs) : ∀ files : List Str,
    stageAll v files = Except.ok () ↔ ∀ f ∈ files, v.addOf f = 0 := by
  intro files
  induction files with
  | nil => simp [stageAll]
  | cons f rest ih =>
    simp only [stageAll, sh]
    by_cases h : v.addOf f = 0
    · simp [h, ih]
    · have hb : (v.addOf f == 0) = false := beq_eq_false_iff_ne.mpr h
      simp [hb, h]

/-!
Claim theorems.
-/

/-- Claim C1, counterexample.  With `tests/` already holding the canonical
`test_mathops.py`, a second materialization for the stem `mathops` does not
replace the canonical file: it writes the fresh sibling `test_mathops_1.py`
and leaves the canonical file's contents untouched, so the one-file-per-stem
replacement behaviour claimed in the spec does not hold. -/
theorem second_materialization_creates_sibling_cex :
    generate_tests_with_copilot [str "home", str "repo"] [str "test_mathops.py"]
        ⟨0, str "def test_add():\n    assert add(1, 2) == 3"⟩
        [str "home", str "repo", str "src", str "mathops.py"] =
      Except.ok ⟨str "test_mathops_1.py", str "def test_add():\nassert add(1, 2) == 3\n",
        [str "test_mathops.py", str "test_mathops_1.py"]⟩ ∧
    str "test_mathops_1.py" ≠ str "test_mathops.py" := ⟨rfl, by decide⟩

/-- Claim C1, amended.  A second materialization for a source stem whose
canonical test file already exists never rewrites the canonical file: the
chooser's result is a fresh name distinct from `test_<stem>.py`, so the
write creates a new numbered sibling instead of replacing the previous
contents. -/
theorem second_materialization_never_touches_canonical (fs : List Str) (stem : Str)
    (hb : baseName stem ∈ fs) :
    get_next_test_filename fs stem ∉ fs ∧ get_next_test_filename fs stem ≠ baseName stem := by
  obtain ⟨hfresh, _, hnum⟩ := getNext_spec fs stem
  obtain ⟨k, _, hk2, _⟩ := hnum hb
  exact ⟨hfresh, by rw [hk2]; exact numbered_ne_base stem k⟩

/-- Claim C1, witness: the amended theorem at a concrete directory that
already contains the canonical file. -/
theorem second_materialization_never_touches_canonical_witness :
    get_next_test_filename [baseName (str "m")] (str "m") ∉ [baseName (str "m")] ∧
    get_next_test_filename [baseName (str "m")] (str "m") ≠ baseName (str "m") :=
  second_materialization_never_touches_canonical [baseName (str "m")] (str "m")
    (List.mem_singleton.mpr rfl)

/-- Claim C2, counterexample.  On a provider answer with no code ("Sure,
here are some tests:"), the sanitized text contains no test function, yet
the code does write a file and records it: the written content is the
always-passing placeholder module containing `def test_placeholder`. -/
theorem unusable_output_writes_placeholder_cex :
    generate_tests_with_copilot [str "home", str "repo"] []
        ⟨0, str "Sure, here are some tests:"⟩
        [str "home", str "repo", str "src", str "mathops.py"] =
      Except.ok ⟨str "test_mathops.py",
        stripStr (placeholder (str "src.mathops")) ++ str "\n", [str "test_mathops.py"]⟩ ∧
    hasSubstr (str "def test_placeholder")
      (stripStr (placeholder (str "src.mathops")) ++ str "\n") = true := ⟨rfl, by decide⟩

/-- Claim C2, amended.  Whenever the provider call succeeds but the
sanitized text contains no test-function definition, the code writes the
placeholder module (importing the module under test and containing an
always-passing `test_placeholder`) to the next free test filename and
records that file as the artifact — it does not skip the write. -/
theorem unusable_output_placeholder_artifact (base : PathC) (fs : List Str) (prov : ProcResult)
    (fp : PathC) (hcode : prov.code = 0)
    (hno : hasSubstr (str "def test_") (cleanText prov.out) = false) :
    generate_tests_with_copilot base fs prov fp =
      Except.ok ⟨get_next_test_filename fs (pathStem fp),
        stripStr (placeholder (module_import_path base fp)) ++ str "\n",
        fs ++ [get_next_test_filename fs (pathStem fp)]⟩ := by
  unfold generate_tests_with_copilot
  simp [sh, hcode, hno]

/-- Claim C2, witness: the amended theorem at a concrete non-code provider
answer. -/
theorem unusable_output_placeholder_artifact_witness :
    generate_tests_with_copilot [str "h"] [] ⟨0, str "hello"⟩ [str "h", str "src", str "m.py"] =
      Except.ok ⟨get_next_test_filename [] (pathStem [str "h", str "src", str "m.py"]),
        stripStr (placeholder (module_import_path [str "h"] [str "h", str "src", str "m.py"])) ++
          str "\n",
        [] ++ [get_next_test_filename [] (pathStem [str "h", str "src", str "m.py"])]⟩ :=
  unusable_output_placeholder_artifact _ _ _ _ rfl (by decide)

/-- Claim C3, counterexample.  With two files to process and the first
provider invocation exiting with code 1, phase A ends with `sys.exit 1`
after a single provider call: nothing is written, and the remaining file is
never processed — the pipeline does not continue as the claim states. -/
theorem provider_failure_halts_pipeline_cex :
    phaseA [str "home"] (fun _ => ⟨1, []⟩) 0 [[str "a.py"], [str "b.py"]] [] =
      ⟨[], [], some 1, 1⟩ := rfl

/-- Claim C3, amended.  A provider invocation that exits non-zero is fatal:
`sh` is called with the default `check=True`, so the whole process exits
with the provider's exit code; no file is written for the failing source
file and no later file is processed. -/
theorem provider_failure_exits_process (base : PathC) (provOf : Nat → ProcResult) (i : Nat)
    (f : PathC) (rest : List PathC) (fs : List Str) (h : (provOf i).code ≠ 0) :
    phaseA base provOf i (f :: rest) fs = ⟨[], fs, some (provOf i).code, 1⟩ := by
  have hb : ((provOf i).code == 0) = false := beq_eq_false_iff_ne.mpr h
  simp [phaseA, generate_tests_with_copilot, sh, hb]

/-- Claim C3, witness: the amended theorem at a concrete failing provider. -/
theorem provider_failure_exits_process_witness :
    phaseA [str "b"] (fun _ => ⟨2, []⟩) 0 [[str "f.py"]] [] =
      ⟨[], [], some ((fun _ => (⟨2, []⟩ : ProcResult)) 0).code, 1⟩ :=
  provider_failure_exits_process [str "b"] (fun _ => ⟨2, []⟩) 0 [str "f.py"] [] [] (by decide)

/-- Claim C4.  With loadable coverage data and an importable module, a
function name is reported as uncovered iff some function of the module
carries that name, its defining source file is among the measured files,
and that file has a non-empty missing-lines set — irrespective of where in
the file the missing lines lie (the function's own span, `firstLine`, is
quantified over and never consulted). -/
theorem uncovered_iff_file_has_missing_lines (cd : CovData) (l : List FnInfo) (nm : Str) :
    nm ∈ find_uncovered_functions (some cd) (some l) ↔
      ∃ f, f ∈ l ∧ f.name = nm ∧ f.file ∈ cd.measured ∧ cd.missingOf f.file ≠ [] := by
  simp [find_uncovered_functions, List.mem_map, List.mem_filter, List.contains,
    List.elem_iff, Bool.and_eq_true, Bool.not_eq_true', List.isEmpty_iff]
  constructor
  · rintro ⟨f, ⟨hf, hm, hne⟩, rfl⟩
    exact ⟨f, hf, rfl, hm, hne⟩
  · rintro ⟨f, hf, rfl, hm, hne⟩
    exact ⟨f, ⟨hf, hm, hne⟩, rfl⟩

/-- Claim C4, witness: a function whose file is measured and has a missing
line is reported. -/
theorem uncovered_iff_file_has_missing_lines_witness :
    str "foo" ∈ find_uncovered_functions (some ⟨[str "a.py"], fun _ => [3]⟩)
      (some [⟨str "foo", str "a.py", 1⟩]) :=
  (uncovered_iff_file_has_missing_lines ⟨[str "a.py"], fun _ => [3]⟩
      [⟨str "foo", str "a.py", 1⟩] (str "foo")).mpr
    ⟨⟨str "foo", str "a.py", 1⟩, by decide, rfl, by decide, by decide⟩

/-- Claim C5, counterexample.  The file `/repo/src/contests.py` satisfies
all five spec-side conditions (exists, regular, rooted under the source
root, traverses no `tests` component, ends in `.py`), yet the code's filter
excludes it because the characters `tests` occur inside the word
`contests` — the code tests the substring `"tests" not in str(f)`, not
tests-root traversal. -/
theorem filter_excludes_tests_substring_cex :
    specKeep (str "/repo/src") ⟨str "/repo/src/contests.py", true, true⟩ ∧
    changed_filter (str "/repo/src") [⟨str "/repo/src/contests.py", true, true⟩] = [] := by
  constructor
  · unfold specKeep
    refine ⟨rfl, rfl, ⟨by decide, by decide⟩, by decide, by decide⟩
  · rfl

/-- Claim C5, amended.  The filtered result contains exactly the candidates
that exist, are regular files, whose path string does not contain `tests`
as a substring, and whose path string starts with the source-root string;
the `.py`-extension restriction is enforced earlier, when the candidate
list is built from the diff lines or the recursive glob. -/
theorem changed_filter_membership (root : Str) (cands : List FileInfo) (f : FileInfo) :
    f ∈ changed_filter root cands ↔
      f ∈ cands ∧ f.present = true ∧ hasSubstr (str "tests") f.path = false ∧
        f.isRegular = true ∧ root.isPrefixOf f.path = true := by
  simp [changed_filter, List.mem_filter, Bool.and_eq_true, Bool.not_eq_true']
  tauto

/-- Claim C5, witness: a concrete kept candidate. -/
theorem changed_filter_membership_witness :
    (⟨str "/r/src/a.py", true, true⟩ : FileInfo) ∈
      changed_filter (str "/r/src") [⟨str "/r/src/a.py", true, true⟩] :=
  (changed_filter_membership (str "/r/src") [⟨str "/r/src/a.py", true, true⟩]
      ⟨str "/r/src/a.py", true, true⟩).mpr ⟨by decide, rfl, by decide, rfl, by decide⟩

/-- Claim C6.  The sanitizer's line-filtering pass is idempotent: running
it a second time on the lines it produced keeps every surviving line
unchanged and drops none of them. -/
theorem sanitizer_line_filter_idempotent (lines : List Str) :
    filterLines (filterLines lines) = filterLines lines := by
  induction lines with
  | nil => rfl
  | cons a t ih =>
    unfold filterLines at ih ⊢
    rw [List.filterMap_cons]
    cases h : processLine a with
    | none => exact ih
    | some m =>
      rw [List.filterMap_cons, processLine_fix h, ih]

/-- Claim C7, counterexample.  For the input `/other/evil.py`, which is not
rooted at the working directory `/home/repo`, the resolver does not fail:
it catches the `ValueError`, falls back to the bare file name, and returns
the dotted identifier `src.evil`. -/
theorem outside_root_returns_identifier_cex :
    ([str "home", str "repo"] : PathC).isPrefixOf [str "other", str "evil.py"] = false ∧
    module_import_path [str "home", str "repo"] [str "other", str "evil.py"] = str "src.evil" :=
  ⟨by decide, rfl⟩

/-- Claim C7, amended.  For every input path not rooted at the working
directory, the resolver catches the `ValueError` and still returns a
dotted module identifier, derived from the file's base name with its
suffix stripped (prefixed with `src.` unless already so prefixed). -/
theorem outside_root_fallback_basename (base fp : PathC) (h : base.isPrefixOf fp = false) :
    module_import_path base fp = srcPrefixed (dotify [stripLastSuffix (lastComp fp)]) := by
  unfold module_import_path relTo
  rw [h]
  simp [withSuffixEmpty, lastComp]

/-- Claim C7, witness: the amended theorem at a concrete outside path. -/
theorem outside_root_fallback_basename_witness :
    module_import_path [str "home", str "repo"] [str "x", str "foo.py"] =
      srcPrefixed (dotify [stripLastSuffix (lastComp [str "x", str "foo.py"])]) :=
  outside_root_fallback_basename [str "home", str "repo"] [str "x", str "foo.py"] (by decide)

/-- Claim C8, counterexample.  A failing `git config user.name` step (exit
code 1) aborts the commit phase: `sh` is invoked with the default
`check=True`, so the process exits with code 1 instead of continuing
best-effort as the claim states. -/
theorem config_failure_aborts_commit_cex :
    git_commit_and_push ⟨1, 0, fun _ => 0, 0, 0⟩ [] = Except.error 1 := rfl

/-- Claim C8, amended.  Only `git commit` and `git push` are best-effort
(`check=False`): the commit phase completes without terminating the process
iff both identity-configuration steps and every staging step exit with
code 0; a failure of any of those fatal steps exits the process with that
step's code. -/
theorem commit_ok_iff_fatal_steps_ok (v : Vcs) (files : List Str) :
    git_commit_and_push v files = Except.ok () ↔
      v.cfgName = 0 ∧ v.cfgEmail = 0 ∧ ∀ f ∈ files, v.addOf f = 0 := by
  unfold git_commit_and_push
  by_cases h1 : v.cfgName = 0
  · by_cases h2 : v.cfgEmail = 0
    · simp [sh, h1, h2]
      cases hst : stageAll v files with
      | error c =>
        simp
        by_contra hcon
        push_neg at hcon
        have hok := (stageAll_ok v files).mpr hcon
        rw [hok] at hst
        exact absurd hst (by simp)
      | ok u =>
        cases u
        simp [← stageAll_ok v files, hst]
    · have hb : (v.cfgEmail == 0) = false := beq_eq_false_iff_ne.mpr h2
      simp [sh, h1, hb, h2]
  · have hb : (v.cfgName == 0) = false := beq_eq_false_iff_ne.mpr h1
    simp [sh, hb, h1]

/-- Claim C8, witness: the commit phase succeeds when all fatal steps exit
with code 0. -/
theorem commit_ok_iff_fatal_steps_ok_witness :
    git_commit_and_push ⟨0, 0, fun _ => 0, 0, 0⟩ [] = Except.ok () :=
  (commit_ok_iff_fatal_steps_ok ⟨0, 0, fun _ => 0, 0, 0⟩ []).mpr ⟨rfl, rfl, by simp⟩

/-- Claim C9.  When change detection yields no files and the recursive scan
of the source root is also empty, the driver exits with code 0 having made
no provider invocation, written no test file, and never run the Validator
(the "nothing to do" message itself is I/O outside the model). -/
theorem empty_work_exits_zero_without_effects (base : PathC) (provOf : Nat → ProcResult)
    (pytestOk : Bool) (cov : Option CovData) (importOf : Str → Option (List FnInfo))
    (v : Vcs) (fs0 : List Str) :
    main_model base [] [] provOf pytestOk cov importOf v fs0 = ⟨0, 0, [], false⟩ := rfl

/-- Claim C10.  The test-filename chooser returns a name that does not
exist at call time — so a materialization write never overwrites a
pre-existing file; the name is the canonical `test_<stem>.py` when that is
free, and otherwise `test_<stem>_<k>.py` for the smallest positive `k`
whose name is free. -/
theorem next_test_filename_fresh_and_minimal (fs : List Str) (stem : Str) :
    get_next_test_filename fs stem ∉ fs ∧
    (baseName stem ∉ fs → get_next_test_filename fs stem = baseName stem) ∧
    (baseName stem ∈ fs → ∃ k, 1 ≤ k ∧ get_next_test_filename fs stem = numbered stem k ∧
      ∀ j, 1 ≤ j → j < k → numbered stem j ∈ fs) :=
  getNext_spec fs stem

/-- Claim C10, witness: the chooser at a concrete occupied directory. -/
theorem next_test_filename_fresh_and_minimal_witness :
    get_next_test_filename [baseName (str "m2")] (str "m2") ∉ [baseName (str "m2")] ∧
    (∃ k, 1 ≤ k ∧
      get_next_test_filename [baseName (str "m2")] (str "m2") = numbered (str "m2") k ∧
      ∀ j, 1 ≤ j → j < k → numbered (str "m2") j ∈ [baseName (str "m2")]) := by
  obtain ⟨h1, _, h3⟩ := next_test_filename_fresh_and_minimal [baseName (str "m2")] (str "m2")
  exact ⟨h1, h3 (List.mem_singleton.mpr rfl)⟩
